import Mathlib

/-!
Shallow embedding of the go-dns-resolver DNS codec (package `dns`:
`dns.go`, `records.go`) and proofs about it.

Conventions of the embedding:

* Go `[]byte` is `List Nat`; each element stands for one octet.
* Go `string` values that hold raw octets (domain names, labels, record
  data) are also `List Nat`; `strings.Join(xs, ".")` is
  `List.intercalate [46]` (46 is the code of a dot) and
  `strings.Split(s, ".")` is `List.splitOn 46`.
* Functions that can fail return `Except DnsError _`; the distinct
  `fmt.Errorf` messages of the source become distinct `DnsError`
  constructors.
* `DecodeDomainName` recurses into compression pointers without any
  bound, so its embedding takes a fuel argument and returns
  `Option (Except DnsError _)`: `none` means the computation did not
  finish within the given fuel.  A result that is `none` for every fuel
  is a non-terminating run of the source.
* Network I/O (`sendQuery`) is outside the embedding; `resolveCheck`
  models the part of `Resolver.Resolve` that runs on the received bytes.
-/

/-- Go `[]byte` (and raw-octet `string`) values. -/
abbrev Bytes := List Nat

/-- `binary.BigEndian.Uint16(msg[i:i+2])`. -/
def be16 (msg : Bytes) (i : Nat) : Nat :=
  (msg.getD i 0) <<< 8 ||| msg.getD (i + 1) 0

/-- `binary.BigEndian.Uint32(msg[i:i+4])`. -/
def be32 (msg : Bytes) (i : Nat) : Nat :=
  (msg.getD i 0) <<< 24 ||| (msg.getD (i + 1) 0) <<< 16 |||
    (msg.getD (i + 2) 0) <<< 8 ||| msg.getD (i + 3) 0

/-- The distinct error values the `dns` package can produce, one
constructor per distinct `errors.New` / `fmt.Errorf` in the source;
wrapping (`%w`) becomes constructor nesting. -/
inductive DnsError where
  /-- `"offset %d out of bounds"` in `DecodeDomainName`. -/
  | offsetOutOfBounds (off : Nat)
  /-- `"malformed pointer at offset %d"` in `DecodeDomainName`. -/
  | malformedPointer (off : Nat)
  /-- `"label length %d extends beyond message boundary"`. -/
  | labelOverrun (len : Nat)
  /-- `"failed to decode pointed name: %w"`. -/
  | pointedName (e : DnsError)
  /-- `"header data too short to unpack"` in `UnpackHeader`. -/
  | headerTooShort
  /-- `"domain segment '%s' is longer than 63 characters"`. -/
  | segmentTooLong (seg : Bytes)
  /-- `"message too short for question type/class"` in `parseQuestion`. -/
  | questionTooShort
  /-- `"failed to parse RR name: %w"` in `ParseResourceRecord`. -/
  | rrName (e : DnsError)
  /-- `"message too short for RR header fields"` in `ParseResourceRecord`. -/
  | truncatedRecordHeader
  /-- `"RR data length exceeds message boundary"` in `ParseResourceRecord`. -/
  | recordDataOverrun
  /-- `ErrServerFailed` (RCODE 2). -/
  | serverFailed
  /-- `ErrNameNotFound` (RCODE 3). -/
  | nameNotFound
  /-- `"failed to parse question %d: %w"` in `parseResponse`. -/
  | questionFailed (i : Nat) (e : DnsError)
  /-- `"failed to parse answer %d: %w"` in `parseResponse`. -/
  | answerFailed (i : Nat) (e : DnsError)
deriving DecidableEq, Repr

deriving instance DecidableEq for Except

/-- The compression-pointer target computed by `DecodeDomainName` when the
length byte at `off` has both top bits set:
`int(binary.BigEndian.Uint16(fullMessage[offset-1:offset+1]) & 0x3FFF)`. -/
def ptrTarget (msg : Bytes) (off : Nat) : Nat :=
  (((msg.getD off 0) <<< 8) ||| msg.getD (off + 1) 0) &&& 0x3FFF

/-- The body of `DecodeDomainName` (dns.go): `off` is the position of the
next length byte, `so` the `startOffset` of the current call, `labels`
the labels accumulated so far.  One unit of fuel is spent per loop
iteration and per recursive pointer jump; the Go code has no such bound,
so `none` (fuel exhausted at every fuel) models non-termination.

The Go `jumped` flag is dead: it is only set immediately before a
`return`, so every `if !jumped` in the source is taken; the embedding
drops it. -/
def decodeGo (msg : Bytes) : Nat → Nat → Nat → List Bytes →
    Option (Except DnsError (Bytes × Nat))
  | 0, _, _, _ => none
  | fuel + 1, off, so, labels =>
    if off < msg.length then
      let len := msg.getD off 0
      if len = 0 then
        some (.ok (List.intercalate [46] labels, off + 1 - so))
      else if len &&& 0xC0 = 0xC0 then
        if off + 1 < msg.length then
          match decodeGo msg fuel (ptrTarget msg off) (ptrTarget msg off) [] with
          | none => none
          | some (.error e) => some (.error (.pointedName e))
          | some (.ok (pname, _)) =>
            some (.ok (List.intercalate [46] (labels ++ [pname]), off + 2 - so))
        else some (.error (.malformedPointer off))
      else
        if off + 1 + len > msg.length then
          some (.error (.labelOverrun len))
        else
          decodeGo msg fuel (off + 1 + len) so (labels ++ [(msg.drop (off + 1)).take len])
    else some (.error (.offsetOutOfBounds off))

/-- `DecodeDomainName(fullMessage, offset)` with the given fuel: returns
the decoded name and the byte count consumed from `offset`. -/
def DecodeDomainName (msg : Bytes) (fuel off : Nat) :
    Option (Except DnsError (Bytes × Nat)) :=
  decodeGo msg fuel off off []

/-- `EncodeDomainName`'s loop over the segments: length byte (`byte(len)`
truncates to an octet) then the segment, failing on a segment longer
than 63. -/
def encodeLabels : List Bytes → Except DnsError Bytes
  | [] => .ok []
  | seg :: rest =>
    if seg.length > 63 then .error (.segmentTooLong seg)
    else
      match encodeLabels rest with
      | .error e => .error e
      | .ok tail => .ok ((seg.length % 256) :: seg ++ tail)

/-- `EncodeDomainName(domain)`: split on dots, emit each
length-prefixed segment, terminate with a zero byte. -/
def EncodeDomainName (domain : Bytes) : Except DnsError Bytes :=
  match encodeLabels (domain.splitOn 46) with
  | .error e => .error e
  | .ok out => .ok (out ++ [0])

/-- C1 (helper): the adversarial two-byte message whose first two bytes
are a compression pointer targeting offset 0, i.e. its own position. -/
def selfPointerMsg : Bytes := [0xC0, 0x00]

/-- **C1.**  The claim says `DecodeDomainName` terminates on every input,
failing with a decode error on pointer cycles.  The code has no bound on
pointer jumps: on `selfPointerMsg` (a pointer at offset 0 targeting
offset 0) the decoder re-enters itself at offset 0 forever.  Formally,
no amount of fuel makes the embedded decoder return, which is exactly a
non-terminating run of the unbounded Go recursion. -/
theorem decodeDomainName_self_pointer_diverges :
    ∀ fuel, DecodeDomainName selfPointerMsg fuel 0 = none := by
  intro fuel
  induction fuel with
  | zero => rfl
  | succ f ih =>
    show decodeGo selfPointerMsg (f + 1) 0 0 [] = none
    have hp : ptrTarget [192, 0] 0 = 0 := by decide
    have ih' : decodeGo [192, 0] f 0 0 [] = none := ih
    simp only [decodeGo, selfPointerMsg, hp]
    norm_num
    rw [ih']

/-- Fuel monotonicity: a run of the decoder that finishes within `f`
units of fuel finishes with the same outcome given more fuel. -/
theorem decodeGo_mono (msg : Bytes) :
    ∀ f f', f ≤ f' → ∀ off so labels r,
      decodeGo msg f off so labels = some r →
      decodeGo msg f' off so labels = some r := by
  intro f
  induction f with
  | zero =>
    intro f' _ off so labels r h
    exact absurd h (by simp [decodeGo])
  | succ f ih =>
    intro f' hle off so labels r h
    obtain ⟨f'', rfl⟩ : ∃ f'', f' = f'' + 1 := ⟨f' - 1, by omega⟩
    have hle' : f ≤ f'' := by omega
    rw [decodeGo] at h ⊢
    by_cases hoff : off < msg.length
    · rw [if_pos hoff] at h ⊢
      by_cases hz : msg.getD off 0 = 0
      · simp only [if_pos hz] at h ⊢; exact h
      · simp only [if_neg hz] at h ⊢
        by_cases hptr : msg.getD off 0 &&& 0xC0 = 0xC0
        · simp only [if_pos hptr] at h ⊢
          by_cases hb : off + 1 < msg.length
          · simp only [if_pos hb] at h ⊢
            cases hrec : decodeGo msg f (ptrTarget msg off) (ptrTarget msg off) [] with
            | none => rw [hrec] at h; exact absurd h (by simp)
            | some r' =>
              rw [hrec] at h
              rw [ih f'' hle' _ _ _ _ hrec]
              exact h
          · simp only [if_neg hb] at h ⊢; exact h
        · simp only [if_neg hptr] at h ⊢
          by_cases hover : off + 1 + msg.getD off 0 > msg.length
          · simp only [if_pos hover] at h ⊢; exact h
          · simp only [if_neg hover] at h ⊢
            exact ih f'' hle' _ _ _ _ h
    · rw [if_neg hoff] at h ⊢; exact h

/-- Reading the element that sits right after a known prefix. -/
theorem getD_at_append (pre : Bytes) (x : Nat) (t : Bytes) (d : Nat) :
    (pre ++ x :: t).getD pre.length d = x := by
  induction pre with
  | nil => rfl
  | cons a p ih => simpa using ih

/-- Dropping a known prefix and one more element. -/
theorem drop_at_append (pre : Bytes) (x : Nat) (t : Bytes) :
    (pre ++ x :: t).drop (pre.length + 1) = t := by
  induction pre with
  | nil => rfl
  | cons a p ih => simp

/-- The wire form `EncodeDomainName` produces for a list of segments,
before the terminating zero: each segment preceded by its length. -/
def encWire (segs : List Bytes) : Bytes :=
  segs.flatMap fun s => s.length :: s

/-- When every segment is within the 63-byte limit, `encodeLabels`
succeeds and produces the length-prefixed wire form. -/
theorem encodeLabels_ok :
    ∀ segs : List Bytes, (∀ s ∈ segs, s.length ≤ 63) →
      encodeLabels segs = .ok (encWire segs) := by
  intro segs
  induction segs with
  | nil => intro _; rfl
  | cons seg rest ih =>
    intro h
    have h1 : seg.length ≤ 63 := h seg (by simp)
    have h2 : ∀ s ∈ rest, s.length ≤ 63 := fun s hs => h s (by simp [hs])
    rw [encodeLabels, if_neg (by omega), ih h2]
    simp [encWire, Nat.mod_eq_of_lt (by omega : seg.length < 256)]

/-- Each segment contributes at least one byte to the wire form. -/
theorem encWire_length_ge :
    ∀ segs : List Bytes, segs.length ≤ (encWire segs).length := by
  intro segs
  induction segs with
  | nil => simp [encWire]
  | cons seg rest ih => simp [encWire] at ih ⊢; omega

/-- A length byte bounded by 63 can never carry the two pointer bits. -/
theorem small_not_pointer {n : Nat} (h : n ≤ 63) : ¬ n &&& 0xC0 = 0xC0 := by
  intro hc
  have := Nat.and_le_left (n := n) (m := 0xC0)
  omega

/-- Decoding the wire form of nonempty, within-limit segments placed
after an arbitrary prefix: the decoder walks every segment and stops at
the terminating zero, consuming exactly the wire bytes. -/
theorem decodeGo_encWire :
    ∀ segs : List Bytes, (∀ s ∈ segs, s ≠ [] ∧ s.length ≤ 63) →
    ∀ (pre : Bytes) (labels : List Bytes) (so : Nat), so ≤ pre.length →
      decodeGo (pre ++ encWire segs ++ [0]) (segs.length + 1) pre.length so labels =
        some (.ok (List.intercalate [46] (labels ++ segs),
          pre.length + (encWire segs).length + 1 - so)) := by
  intro segs
  induction segs with
  | nil =>
    intro _ pre labels so hso
    have hmsg : pre ++ encWire [] ++ [0] = pre ++ (0 : Nat) :: [] := by
      simp [encWire]
    rw [hmsg, decodeGo]
    have hlen : (pre ++ (0 : Nat) :: []).length = pre.length + 1 := by simp
    rw [if_pos (by omega), getD_at_append]
    simp [encWire]
  | cons seg rest ih =>
    intro h pre labels so hso
    have hne : seg ≠ [] := (h seg (by simp)).1
    have h63 : seg.length ≤ 63 := (h seg (by simp)).2
    have hpos : 0 < seg.length := List.length_pos.mpr hne
    have hrest : ∀ s ∈ rest, s ≠ [] ∧ s.length ≤ 63 := fun s hs => h s (by simp [hs])
    have hmsg : pre ++ encWire (seg :: rest) ++ [0]
        = pre ++ seg.length :: (seg ++ (encWire rest ++ [0])) := by
      simp [encWire]
    have hlen : (pre ++ seg.length :: (seg ++ (encWire rest ++ [0]))).length
        = pre.length + 1 + seg.length + (encWire rest).length + 1 := by
      simp; omega
    rw [hmsg]
    show decodeGo _ (rest.length + 1 + 1) _ _ _ = _
    rw [decodeGo, if_pos (by omega), getD_at_append]
    rw [if_neg (by omega), if_neg (small_not_pointer h63), if_neg (by omega)]
    rw [drop_at_append, List.take_left' rfl]
    have hassoc : pre ++ seg.length :: (seg ++ (encWire rest ++ [0]))
        = (pre ++ seg.length :: seg) ++ encWire rest ++ [0] := by
      simp
    have hplen : (pre ++ seg.length :: seg).length = pre.length + 1 + seg.length := by
      simp; omega
    rw [hassoc]
    have := ih hrest (pre ++ seg.length :: seg) (labels ++ [seg]) so (by omega)
    rw [hplen] at this
    rw [show pre.length + 1 + seg.length = (pre.length + 1) + seg.length from rfl] at this ⊢
    rw [this]
    have hlabels : (labels ++ [seg]) ++ rest = labels ++ seg :: rest := by simp
    rw [hlabels]
    have hcount : pre.length + 1 + seg.length + (encWire rest).length + 1 - so
        = pre.length + (encWire (seg :: rest)).length + 1 - so := by
      simp [encWire]; omega
    rw [hcount]

/-- **C5 (amended).**  Round-trip of the name codec: for a domain name
all of whose dot-separated segments are nonempty and at most 63 bytes,
decoding the encoding at offset 0 returns the original name and consumes
the whole encoding.  (The nonemptiness condition is forced: see the
counterexample `encode_decode_not_roundtrip_empty_segment`.) -/
theorem encode_decode_roundtrip (name : Bytes)
    (h : ∀ s ∈ name.splitOn 46, s ≠ [] ∧ s.length ≤ 63) :
    ∃ enc, EncodeDomainName name = .ok enc ∧
      DecodeDomainName enc enc.length 0 = some (.ok (name, enc.length)) := by
  have h63 : ∀ s ∈ name.splitOn 46, s.length ≤ 63 := fun s hs => (h s hs).2
  have henc := encodeLabels_ok _ h63
  refine ⟨encWire (name.splitOn 46) ++ [0], ?_, ?_⟩
  · rw [EncodeDomainName, henc]
  · have hd := decodeGo_encWire (name.splitOn 46) h [] [] 0 (by simp)
    simp only [List.nil_append, List.length_nil, List.intercalate_splitOn,
      Nat.sub_zero, Nat.zero_add] at hd
    have hfuel : (name.splitOn 46).length + 1 ≤ (encWire (name.splitOn 46) ++ [0]).length := by
      have := encWire_length_ge (name.splitOn 46)
      simp; omega
    have := decodeGo_mono _ _ _ hfuel _ _ _ _ hd
    rw [DecodeDomainName, this]
    simp

/-- **C5 (counterexample).**  The claim as stated fails: the name
`"a."` (bytes `[97, 46]`) splits into segments `["a", ""]`, both of
length at most 63, yet decoding its encoding `[1, 97, 0, 0]` stops at
the zero length byte produced by the empty segment and yields `"a"`
(`[97]`), not the original name. -/
theorem encode_decode_not_roundtrip_empty_segment :
    List.splitOn 46 [97, 46] = [[97], []] ∧
    (∀ s ∈ List.splitOn 46 [97, 46], s.length ≤ 63) ∧
    EncodeDomainName [97, 46] = .ok [1, 97, 0, 0] ∧
    DecodeDomainName [1, 97, 0, 0] 4 0 = some (.ok ([97], 3)) ∧
    ¬ ([97] : Bytes) = [97, 46] := by
  refine ⟨by decide, ?_, by decide, by decide, by decide⟩
  decide

/-- **C5 (witness).**  A concrete round trip through the amended
theorem: `"ab.c"` (bytes `[97, 98, 46, 99]`) encodes to
`[2, 97, 98, 1, 99, 0]` and decodes back to itself. -/
theorem encode_decode_roundtrip_witness :
    EncodeDomainName [97, 98, 46, 99] = .ok [2, 97, 98, 1, 99, 0] ∧
    DecodeDomainName [2, 97, 98, 1, 99, 0] 6 0 =
      some (.ok ([97, 98, 46, 99], 6)) := by
  obtain ⟨enc, h1, h2⟩ := encode_decode_roundtrip [97, 98, 46, 99] (by decide)
  have he : enc = [2, 97, 98, 1, 99, 0] :=
    Except.ok.inj (h1.symm.trans (by decide))
  subst he
  exact ⟨h1, h2⟩

/-- **C6.**  When a successful decode meets a compression pointer at
`off` (having read `off - so` bytes of plain labels since its start
offset `so`), the consumed-byte count it returns is exactly those label
bytes plus 2 bytes for the pointer — the inner decode's own byte count
`m` is discarded — and the pointer ends the name: the result is the
labels read so far joined with the pointed-to name, nothing after the
pointer is consumed. -/
theorem decode_pointer_count (msg : Bytes) (fuel off so : Nat) (labels : List Bytes)
    (nm : Bytes) (n : Nat)
    (hso : so ≤ off)
    (hptr : msg.getD off 0 &&& 0xC0 = 0xC0)
    (h : decodeGo msg fuel off so labels = some (.ok (nm, n))) :
    n = (off - so) + 2 ∧
    ∃ pname m,
      decodeGo msg (fuel - 1) (ptrTarget msg off) (ptrTarget msg off) [] =
        some (.ok (pname, m)) ∧
      nm = List.intercalate [46] (labels ++ [pname]) := by
  cases fuel with
  | zero => exact absurd h (by simp [decodeGo])
  | succ f =>
    rw [decodeGo] at h
    by_cases hoff : off < msg.length
    · rw [if_pos hoff] at h
      have hz : ¬ msg.getD off 0 = 0 := by
        intro h0
        rw [h0] at hptr
        simp [Nat.zero_and] at hptr
      rw [if_neg hz, if_pos hptr] at h
      by_cases hb : off + 1 < msg.length
      · rw [if_pos hb] at h
        cases hrec : decodeGo msg f (ptrTarget msg off) (ptrTarget msg off) [] with
        | none => rw [hrec] at h; exact absurd h (by simp)
        | some r' =>
          rw [hrec] at h
          cases r' with
          | error e => simp at h
          | ok p =>
            obtain ⟨pname, m⟩ := p
            simp only [Option.some.injEq, Except.ok.injEq, Prod.mk.injEq] at h
            obtain ⟨h1, h2⟩ := h
            exact ⟨by omega, pname, m, hrec, h1.symm⟩
      · rw [if_neg hb] at h; simp at h
    · rw [if_neg hoff] at h; simp at h

/-- **C6 (witness).**  In the message `[1, 97, 192, 4, 1, 98, 0]` the
name at offset 0 is the label `"a"` followed at offset 2 by a pointer to
offset 4, where `"b"` lies.  Decoding from the state just before the
pointer (2 label bytes consumed) returns `"a.b"` with 4 consumed bytes:
2 for the label, 2 for the pointer, none for the pointed-to suffix. -/
theorem decode_pointer_count_witness :
    decodeGo [1, 97, 192, 4, 1, 98, 0] 3 2 0 [[97]] =
      some (.ok ([97, 46, 98], 4)) ∧
    (4 : Nat) = ((2 : Nat) - 0) + 2 := by
  have h := decode_pointer_count [1, 97, 192, 4, 1, 98, 0] 3 2 0 [[97]]
    [97, 46, 98] 4 (by omega) (by decide) (by decide)
  exact ⟨by decide, h.1⟩

/-- `RecordType` is a `uint16` wrapper; the embedding keeps the number. -/
abbrev RecordType := Nat

/-- `TypeA RecordType = 1`. -/
def TypeA : RecordType := 1

/-- `TypeAAAA RecordType = 28`. -/
def TypeAAAA : RecordType := 28

/-- `TypeCNAME RecordType = 5`. -/
def TypeCNAME : RecordType := 5

/-- `TypeMX RecordType = 15`. -/
def TypeMX : RecordType := 15

/-- `TypeTXT RecordType = 16`. -/
def TypeTXT : RecordType := 16

/-- `TypeNS RecordType = 2`. -/
def TypeNS : RecordType := 2

/-- The DNS message header (type `Header` in dns.go): six `uint16`
fields in wire order. -/
structure Header where
  ID : Nat
  Flags : Nat
  QDCOUNT : Nat
  ANCOUNT : Nat
  NSCOUNT : Nat
  ARCOUNT : Nat
deriving DecidableEq, Repr

/-- A question-section entry (type `Question` in dns.go); `RType`
stands for the Go field `Type`, a reserved word here. -/
structure Question where
  Name : Bytes
  RType : RecordType
  Class : Nat
deriving DecidableEq, Repr

/-- A resource record (type `ResourceRecord` in records.go); `RType`
stands for the Go field `Type`, a reserved word here. -/
structure ResourceRecord where
  Name : Bytes
  RType : RecordType
  Class : Nat
  TTL : Nat
  RDLength : Nat
  RData : Bytes
deriving DecidableEq, Repr

/-- A parsed DNS message (type `DNSMessage` in dns.go). -/
structure DNSMessage where
  Header : Header
  Questions : List Question
  Answers : List ResourceRecord
  Authority : List ResourceRecord
  Additional : List ResourceRecord
deriving DecidableEq, Repr

/-- `UnpackHeader(data)`: fails if fewer than 12 bytes are available,
otherwise `binary.Read` decodes the six big-endian `uint16` fields in
order from `data[:12]`. -/
def UnpackHeader (data : Bytes) : Except DnsError Header :=
  if data.length < 12 then .error .headerTooShort
  else
    let d := data.take 12
    .ok { ID := be16 d 0, Flags := be16 d 2, QDCOUNT := be16 d 4,
          ANCOUNT := be16 d 6, NSCOUNT := be16 d 8, ARCOUNT := be16 d 10 }

/-- `parseQuestion(message, offset)`: decode the name, then read type
and class right after it; returns the question and the byte count
consumed (`nameLen + 4`). -/
def parseQuestion (msg : Bytes) (fuel off : Nat) :
    Option (Except DnsError (Question × Nat)) :=
  match DecodeDomainName msg fuel off with
  | none => none
  | some (.error e) => some (.error e)
  | some (.ok (name, nameLen)) =>
    if off + nameLen + 4 > msg.length then some (.error .questionTooShort)
    else
      some (.ok ({ Name := name, RType := be16 msg (off + nameLen),
                   Class := be16 msg (off + nameLen + 2) }, nameLen + 4))

/-- `ParseResourceRecord(message, offset)`: decode the owner name, then
require 10 bytes of type/class/ttl/rdlength, then `RDLength` bytes of
data.  Unlike `parseQuestion`, the second component of the result is the
*absolute* offset just past the record (`return rr, offset, nil` after
the three `offset += ...` updates). -/
def ParseResourceRecord (msg : Bytes) (fuel off : Nat) :
    Option (Except DnsError (ResourceRecord × Nat)) :=
  match DecodeDomainName msg fuel off with
  | none => none
  | some (.error e) => some (.error (.rrName e))
  | some (.ok (name, nameLen)) =>
    if off + nameLen + 10 > msg.length then some (.error .truncatedRecordHeader)
    else
      let rdlength := be16 msg (off + nameLen + 8)
      if off + nameLen + 10 + rdlength > msg.length then
        some (.error .recordDataOverrun)
      else
        some (.ok ({ Name := name,
                     RType := be16 msg (off + nameLen),
                     Class := be16 msg (off + nameLen + 2),
                     TTL := be32 msg (off + nameLen + 4),
                     RDLength := rdlength,
                     RData := (msg.drop (off + nameLen + 10)).take rdlength },
                   off + nameLen + 10 + rdlength))

/-- The question loop of `parseResponse`: parse `count` questions
starting at `off`, question `i` first; each iteration advances the
offset by the consumed byte count (`offset += n`). -/
def parseQuestions (msg : Bytes) (fuel : Nat) :
    Nat → Nat → Nat → Option (Except DnsError (List Question × Nat))
  | _, off, 0 => some (.ok ([], off))
  | i, off, count + 1 =>
    match parseQuestion msg fuel off with
    | none => none
    | some (.error e) => some (.error (.questionFailed i e))
    | some (.ok (q, n)) =>
      match parseQuestions msg fuel (i + 1) (off + n) count with
      | none => none
      | some (.error e) => some (.error e)
      | some (.ok (qs, off')) => some (.ok (q :: qs, off'))

/-- The answer loop of `parseResponse`: parse `count` answers starting
at `off`.  Each iteration does `offset += n` where `n` is the second
component returned by `ParseResourceRecord` — which is an absolute
offset, not a byte count. -/
def parseAnswers (msg : Bytes) (fuel : Nat) :
    Nat → Nat → Nat → Option (Except DnsError (List ResourceRecord × Nat))
  | _, off, 0 => some (.ok ([], off))
  | i, off, count + 1 =>
    match ParseResourceRecord msg fuel off with
    | none => none
    | some (.error e) => some (.error (.answerFailed i e))
    | some (.ok (rr, n)) =>
      match parseAnswers msg fuel (i + 1) (off + n) count with
      | none => none
      | some (.error e) => some (.error e)
      | some (.ok (rrs, off')) => some (.ok (rr :: rrs, off'))

/-- `parseResponse(response)`: unpack the header, map RCODE 2 and 3 to
their errors, then parse `QDCOUNT` questions from offset 12 followed by
`ANCOUNT` answers.  Authority and Additional are never filled in
(`// ... repeat for NSCOUNT and ARCOUNT ...`). -/
def parseResponse (fuel : Nat) (response : Bytes) :
    Option (Except DnsError DNSMessage) :=
  match UnpackHeader response with
  | .error e => some (.error e)
  | .ok header =>
    if header.Flags &&& 0x000F = 2 then some (.error .serverFailed)
    else if header.Flags &&& 0x000F = 3 then some (.error .nameNotFound)
    else
      match parseQuestions response fuel 0 12 header.QDCOUNT with
      | none => none
      | some (.error e) => some (.error e)
      | some (.ok (qs, off)) =>
        match parseAnswers response fuel 0 off header.ANCOUNT with
        | none => none
        | some (.error e) => some (.error e)
        | some (.ok (ans, _)) =>
          some (.ok { Header := header, Questions := qs, Answers := ans,
                      Authority := [], Additional := [] })

/-- The errors `Resolver.Resolve` can report about received bytes. -/
inductive ResolveError where
  /-- `"failed to parse response: %w"`. -/
  | parseFailed (e : DnsError)
  /-- `"response ID %d does not match query ID %d"`. -/
  | idMismatch (respID queryID : Nat)
deriving DecidableEq, Repr

/-- The tail of `Resolver.Resolve` that runs once the response bytes are
in hand: parse them, then reject the message when its header id differs
from the query id. -/
def resolveCheck (fuel queryID : Nat) (response : Bytes) :
    Option (Except ResolveError DNSMessage) :=
  match parseResponse fuel response with
  | none => none
  | some (.error e) => some (.error (.parseFailed e))
  | some (.ok msg) =>
    if msg.Header.ID ≠ queryID then
      some (.error (.idMismatch msg.Header.ID queryID))
    else some (.ok msg)

/-- Reading a 16-bit field entirely inside the first 12 bytes gives the
same value on `data.take 12` and on `data`. -/
theorem be16_take (data : Bytes) (i : Nat) (hi : i + 1 < 12) :
    be16 (data.take 12) i = be16 data i := by
  have h1 : (data.take 12).getD i 0 = data.getD i 0 := by
    rw [List.getD_eq_getElem?_getD, List.getD_eq_getElem?_getD,
      List.getElem?_take_of_lt (by omega)]
  have h2 : (data.take 12).getD (i + 1) 0 = data.getD (i + 1) 0 := by
    rw [List.getD_eq_getElem?_getD, List.getD_eq_getElem?_getD,
      List.getElem?_take_of_lt (by omega)]
  rw [be16, be16, h1, h2]

/-- **C8.**  `UnpackHeader` fails exactly when fewer than 12 bytes are
available, and otherwise reads the six big-endian `uint16` fields in
wire order. -/
theorem unpackHeader_spec (data : Bytes) :
    (data.length < 12 → UnpackHeader data = .error .headerTooShort) ∧
    (12 ≤ data.length →
      UnpackHeader data =
        .ok { ID := be16 data 0, Flags := be16 data 2, QDCOUNT := be16 data 4,
              ANCOUNT := be16 data 6, NSCOUNT := be16 data 8,
              ARCOUNT := be16 data 10 }) := by
  constructor
  · intro h
    rw [UnpackHeader, if_pos h]
  · intro h
    rw [UnpackHeader, if_neg (by omega)]
    simp only [be16_take data 0 (by omega), be16_take data 2 (by omega),
      be16_take data 4 (by omega), be16_take data 6 (by omega),
      be16_take data 8 (by omega), be16_take data 10 (by omega)]

/-- **C8 (witness).**  Scenario B: the 12 raw bytes for id `0x1234`,
flags `0x8180`, qdcount 1, ancount 1 unpack to exactly those values. -/
theorem unpackHeader_witness :
    UnpackHeader [0x12, 0x34, 0x81, 0x80, 0, 1, 0, 1, 0, 0, 0, 0] =
      .ok { ID := 0x1234, Flags := 0x8180, QDCOUNT := 1, ANCOUNT := 1,
            NSCOUNT := 0, ARCOUNT := 0 } := by
  have h := (unpackHeader_spec [0x12, 0x34, 0x81, 0x80, 0, 1, 0, 1, 0, 0, 0, 0]).2
    (by decide)
  rw [h]
  decide

/-- **C3 (amended).**  Whenever the response parses successfully and its
header id differs from the query id, `Resolve` fails with the
id-mismatch error.  (The original "regardless of the response code" is
refuted by `resolve_id_mismatch_counterexample`: response codes 2 and 3
abort `parseResponse` first.) -/
theorem resolve_id_mismatch (fuel queryID : Nat) (response : Bytes)
    (msg : DNSMessage)
    (hparse : parseResponse fuel response = some (.ok msg))
    (hid : msg.Header.ID ≠ queryID) :
    resolveCheck fuel queryID response =
      some (.error (.idMismatch msg.Header.ID queryID)) := by
  rw [resolveCheck, hparse]
  show (if msg.Header.ID ≠ queryID
      then some (Except.error (ResolveError.idMismatch msg.Header.ID queryID))
      else some (Except.ok msg)) = _
  rw [if_pos hid]

/-- **C3 (counterexample).**  A response whose header id (5) differs
from the query id (4) but whose response code is 3 makes `Resolve` fail
with the name-not-found parse error, not the id-mismatch error — the
claim's "regardless of the response code" is false. -/
theorem resolve_id_mismatch_counterexample :
    be16 [0, 5, 0, 3, 0, 0, 0, 0, 0, 0, 0, 0] 0 = 5 ∧
    (5 : Nat) ≠ 4 ∧
    resolveCheck 1 4 [0, 5, 0, 3, 0, 0, 0, 0, 0, 0, 0, 0] =
      some (.error (.parseFailed .nameNotFound)) ∧
    (Except.error (.parseFailed .nameNotFound) : Except ResolveError DNSMessage) ≠
      .error (.idMismatch 5 4) := by
  decide

/-- **C3 (witness).**  Scenario D: a NOERROR response with header id
`0x0005` answering a query with id `0x0004` fails with the id-mismatch
error. -/
theorem resolve_id_mismatch_witness :
    resolveCheck 1 4 [0, 5, 0x81, 0x80, 0, 0, 0, 0, 0, 0, 0, 0] =
      some (.error (.idMismatch 5 4)) := by
  have h := resolve_id_mismatch 1 4 [0, 5, 0x81, 0x80, 0, 0, 0, 0, 0, 0, 0, 0]
    { Header := { ID := 5, Flags := 0x8180, QDCOUNT := 0, ANCOUNT := 0,
                  NSCOUNT := 0, ARCOUNT := 0 },
      Questions := [], Answers := [], Authority := [], Additional := [] }
    (by decide) (by decide)
  exact h

/-- **C4.**  The claim (and the function's own doc comment) says every
nonzero response code other than 2 and 3 fails with a generic protocol
error.  The code checks only 2 and 3: a response with RCODE 1 parses
successfully.  The first two conjuncts record the handling the code does
have; the last two exhibit the failing input. -/
theorem parseResponse_rcode_gap :
    parseResponse 1 [0, 1, 0, 2, 0, 0, 0, 0, 0, 0, 0, 0] =
      some (.error .serverFailed) ∧
    parseResponse 1 [0, 1, 0, 3, 0, 0, 0, 0, 0, 0, 0, 0] =
      some (.error .nameNotFound) ∧
    be16 [0, 1, 0, 1, 0, 0, 0, 0, 0, 0, 0, 0] 2 &&& 0x000F = 1 ∧
    parseResponse 1 [0, 1, 0, 1, 0, 0, 0, 0, 0, 0, 0, 0] =
      some (.ok { Header := { ID := 1, Flags := 1, QDCOUNT := 0, ANCOUNT := 0,
                              NSCOUNT := 0, ARCOUNT := 0 },
                  Questions := [], Answers := [], Authority := [],
                  Additional := [] }) := by
  decide

/-- C2 (helper): a response declaring two answers, laid out
back-to-back: a 12-byte header with ANCOUNT = 2, then two identical
11-byte records (root name, type 1, class 1, ttl 0, rdlength 0) at
offsets 12 and 23. -/
def twoAnswerResponse : Bytes :=
  [0, 0, 0, 0, 0, 0, 0, 2, 0, 0, 0, 0,
   0, 0, 1, 0, 1, 0, 0, 0, 0, 0, 0,
   0, 0, 1, 0, 1, 0, 0, 0, 0, 0, 0]

/-- **C2.**  `ParseResourceRecord` returns the *absolute* offset just
past the record (23 for the record starting at 12), but `parseResponse`
adds that return value to the current offset (`offset += n`), so the
second answer is parsed at 12 + 23 = 35 instead of 23.  On this
well-formed two-answer message — whose records parse fine at their true
positions 12 and 23 — `parseResponse` runs off the end of the 34-byte
message and fails. -/
theorem parseResponse_answer_offset_bug :
    ParseResourceRecord twoAnswerResponse 1 12 =
      some (.ok ({ Name := [], RType := 1, Class := 1, TTL := 0,
                   RDLength := 0, RData := [] }, 23)) ∧
    ParseResourceRecord twoAnswerResponse 1 23 =
      some (.ok ({ Name := [], RType := 1, Class := 1, TTL := 0,
                   RDLength := 0, RData := [] }, 34)) ∧
    parseResponse 2 twoAnswerResponse =
      some (.error (.answerFailed 1 (.rrName (.offsetOutOfBounds 35)))) := by
  decide

/-- **C7.**  Given a decoded owner name, `ParseResourceRecord` fails
with the truncation error when fewer than 10 bytes remain for
type/class/ttl/rdlength, fails with the overrun error when fewer than
`RDLength` bytes remain after those fields, and otherwise returns the
record whose data is exactly the declared `RDLength` bytes drawn from
within the message, together with the offset just past the record —
never touching a byte at or past `msg.length`. -/
theorem parseResourceRecord_bounds (msg : Bytes) (fuel off : Nat)
    (name : Bytes) (nameLen : Nat)
    (hname : DecodeDomainName msg fuel off = some (.ok (name, nameLen))) :
    (msg.length < off + nameLen + 10 →
      ParseResourceRecord msg fuel off = some (.error .truncatedRecordHeader)) ∧
    (off + nameLen + 10 ≤ msg.length →
      (msg.length < off + nameLen + 10 + be16 msg (off + nameLen + 8) →
        ParseResourceRecord msg fuel off = some (.error .recordDataOverrun)) ∧
      (off + nameLen + 10 + be16 msg (off + nameLen + 8) ≤ msg.length →
        ParseResourceRecord msg fuel off =
          some (.ok
            ({ Name := name,
               RType := be16 msg (off + nameLen),
               Class := be16 msg (off + nameLen + 2),
               TTL := be32 msg (off + nameLen + 4),
               RDLength := be16 msg (off + nameLen + 8),
               RData := (msg.drop (off + nameLen + 10)).take
                 (be16 msg (off + nameLen + 8)) },
             off + nameLen + 10 + be16 msg (off + nameLen + 8))) ∧
        ((msg.drop (off + nameLen + 10)).take
            (be16 msg (off + nameLen + 8))).length =
          be16 msg (off + nameLen + 8))) := by
  have heq : ParseResourceRecord msg fuel off =
      if off + nameLen + 10 > msg.length then
        some (.error .truncatedRecordHeader)
      else if off + nameLen + 10 + be16 msg (off + nameLen + 8) > msg.length then
        some (.error .recordDataOverrun)
      else
        some (.ok
          ({ Name := name,
             RType := be16 msg (off + nameLen),
             Class := be16 msg (off + nameLen + 2),
             TTL := be32 msg (off + nameLen + 4),
             RDLength := be16 msg (off + nameLen + 8),
             RData := (msg.drop (off + nameLen + 10)).take
               (be16 msg (off + nameLen + 8)) },
           off + nameLen + 10 + be16 msg (off + nameLen + 8))) := by
    rw [ParseResourceRecord, hname]
  refine ⟨?_, fun h10 => ⟨?_, fun hrd => ⟨?_, ?_⟩⟩⟩
  · intro h
    rw [heq, if_pos (by omega)]
  · intro h
    rw [heq, if_neg (by omega), if_pos (by omega)]
  · rw [heq, if_neg (by omega), if_neg (by omega)]
  · rw [List.length_take, List.length_drop]
    omega

/-- **C7 (witness).**  A 13-byte message holding one record (root name,
rdlength 2) parses into a record with exactly 2 data bytes ending at
offset 13; the same record with its last data byte cut off fails with
the overrun error. -/
theorem parseResourceRecord_bounds_witness :
    ParseResourceRecord [0, 0, 1, 0, 1, 0, 0, 0, 0, 0, 2, 9, 9] 1 0 =
      some (.ok ({ Name := [], RType := 1, Class := 1, TTL := 0,
                   RDLength := 2, RData := [9, 9] }, 13)) ∧
    ParseResourceRecord [0, 0, 1, 0, 1, 0, 0, 0, 0, 0, 2, 9] 1 0 =
      some (.error .recordDataOverrun) := by
  have hfull := parseResourceRecord_bounds [0, 0, 1, 0, 1, 0, 0, 0, 0, 0, 2, 9, 9]
    1 0 [] 1 (by decide)
  have hcut := parseResourceRecord_bounds [0, 0, 1, 0, 1, 0, 0, 0, 0, 0, 2, 9]
    1 0 [] 1 (by decide)
  constructor
  · rw [((hfull.2 (by decide)).2 (by decide)).1]
    decide
  · rw [(hcut.2 (by decide)).1 (by decide)]

/-- The question loop returns exactly as many questions as it was asked
to parse. -/
theorem parseQuestions_length (msg : Bytes) (fuel : Nat) :
    ∀ count i off qs off',
      parseQuestions msg fuel i off count = some (.ok (qs, off')) →
      qs.length = count := by
  intro count
  induction count with
  | zero =>
    intro i off qs off' h
    simp only [parseQuestions, Option.some.injEq, Except.ok.injEq,
      Prod.mk.injEq] at h
    rw [← h.1]
    rfl
  | succ c ih =>
    intro i off qs off' h
    rw [parseQuestions] at h
    split at h
    · exact absurd h (by simp)
    · exact absurd h (by simp)
    · split at h
      · exact absurd h (by simp)
      · exact absurd h (by simp)
      · rename_i hrest
        simp only [Option.some.injEq, Except.ok.injEq, Prod.mk.injEq] at h
        rw [← h.1, List.length_cons, ih _ _ _ _ hrest]

/-- The answer loop returns exactly as many records as it was asked to
parse. -/
theorem parseAnswers_length (msg : Bytes) (fuel : Nat) :
    ∀ count i off rrs off',
      parseAnswers msg fuel i off count = some (.ok (rrs, off')) →
      rrs.length = count := by
  intro count
  induction count with
  | zero =>
    intro i off rrs off' h
    simp only [parseAnswers, Option.some.injEq, Except.ok.injEq,
      Prod.mk.injEq] at h
    rw [← h.1]
    rfl
  | succ c ih =>
    intro i off rrs off' h
    rw [parseAnswers] at h
    split at h
    · exact absurd h (by simp)
    · exact absurd h (by simp)
    · split at h
      · exact absurd h (by simp)
      · exact absurd h (by simp)
      · rename_i hrest
        simp only [Option.some.injEq, Except.ok.injEq, Prod.mk.injEq] at h
        rw [← h.1, List.length_cons, ih _ _ _ _ hrest]

/-- **C9.**  Every message `parseResponse` accepts has empty Authority
and Additional sections, exactly the declared number of questions and
answers, and a header that is the unchanged unpacked wire header — in
particular the NSCOUNT and ARCOUNT wire values survive in it even
though no authority or additional record is decoded. -/
theorem parseResponse_sections (fuel : Nat) (resp : Bytes) (msg : DNSMessage)
    (h : parseResponse fuel resp = some (.ok msg)) :
    msg.Authority = [] ∧ msg.Additional = [] ∧
    msg.Questions.length = msg.Header.QDCOUNT ∧
    msg.Answers.length = msg.Header.ANCOUNT ∧
    UnpackHeader resp = .ok msg.Header ∧
    msg.Header.NSCOUNT = be16 resp 8 ∧
    msg.Header.ARCOUNT = be16 resp 10 := by
  rw [parseResponse] at h
  split at h
  · exact absurd h (by simp)
  · rename_i header hu
    split at h
    · exact absurd h (by simp)
    · split at h
      · exact absurd h (by simp)
      · split at h
        · exact absurd h (by simp)
        · exact absurd h (by simp)
        · rename_i hq
          split at h
          · exact absurd h (by simp)
          · exact absurd h (by simp)
          · rename_i ha
            simp only [Option.some.injEq, Except.ok.injEq] at h
            subst h
            have hlen12 : ¬ resp.length < 12 := by
              intro hlt
              rw [UnpackHeader, if_pos hlt] at hu
              exact absurd hu (by simp)
            have hhdr : header =
                { ID := be16 (resp.take 12) 0, Flags := be16 (resp.take 12) 2,
                  QDCOUNT := be16 (resp.take 12) 4,
                  ANCOUNT := be16 (resp.take 12) 6,
                  NSCOUNT := be16 (resp.take 12) 8,
                  ARCOUNT := be16 (resp.take 12) 10 } := by
              rw [UnpackHeader, if_neg hlen12] at hu
              exact (Except.ok.inj hu).symm
            refine ⟨rfl, rfl, ?_, ?_, hu, ?_, ?_⟩
            · exact parseQuestions_length resp fuel header.QDCOUNT _ _ _ _ hq
            · exact parseAnswers_length resp fuel header.ANCOUNT _ _ _ _ ha
            · rw [hhdr]
              exact be16_take resp 8 (by omega)
            · rw [hhdr]
              exact be16_take resp 10 (by omega)

/-- C9 (helper): a response with NSCOUNT = 7 and ARCOUNT = 9 but no
question or answer. -/
def respNsAr : Bytes := [0, 1, 0, 0, 0, 0, 0, 0, 0, 7, 0, 9]

/-- C9 (helper): the message `parseResponse` produces for `respNsAr`. -/
def msgNsAr : DNSMessage :=
  { Header := { ID := 1, Flags := 0, QDCOUNT := 0, ANCOUNT := 0,
                NSCOUNT := 7, ARCOUNT := 9 },
    Questions := [], Answers := [], Authority := [], Additional := [] }

/-- **C9 (witness).**  The concrete response `respNsAr` is accepted:
its parsed message carries the wire NSCOUNT 7 and ARCOUNT 9 in the
header while both trailing sections stay empty. -/
theorem parseResponse_sections_witness :
    parseResponse 1 respNsAr = some (.ok msgNsAr) ∧
    msgNsAr.Authority = [] ∧ msgNsAr.Additional = [] ∧
    msgNsAr.Questions.length = msgNsAr.Header.QDCOUNT ∧
    msgNsAr.Answers.length = msgNsAr.Header.ANCOUNT ∧
    msgNsAr.Header.NSCOUNT = be16 respNsAr 8 ∧
    msgNsAr.Header.ARCOUNT = be16 respNsAr 10 := by
  have h := parseResponse_sections 1 respNsAr msgNsAr (by decide)
  exact ⟨by decide, h.1, h.2.1, h.2.2.1, h.2.2.2.1, h.2.2.2.2.2.1,
    h.2.2.2.2.2.2⟩

/-- The TXT loop of `RDataString`: while bytes remain, read a length
byte; when strictly more bytes than the length remain, take that many
content bytes as one character-string and continue after them,
otherwise stop.  The loop consumes at least one byte per iteration, so
`data.length` units of fuel always suffice (`txtChunksGo_fuel`). -/
def txtChunksGo : Nat → Bytes → List Bytes
  | 0, _ => []
  | _ + 1, [] => []
  | f + 1, len :: rest =>
    if rest.length + 1 > len then (rest.take len) :: txtChunksGo f (rest.drop len)
    else []

/-- The character-strings the TXT case of `RDataString` extracts from a
record's data. -/
def txtChunks (data : Bytes) : List Bytes :=
  txtChunksGo data.length data

/-- The wire form of a list of TXT character-strings: each chunk
preceded by its length byte. -/
def txtWire (chunks : List Bytes) : Bytes :=
  chunks.flatMap fun c => c.length :: c

/-- Any fuel at least `data.length` gives the same TXT chunks: the loop
never exhausts realistic fuel, so `txtChunks` is the loop's unique
outcome. -/
theorem txtChunksGo_fuel :
    ∀ f data, List.length data ≤ f →
      txtChunksGo f data = txtChunks data := by
  intro f
  induction f using Nat.strong_induction_on with
  | _ f ih =>
    intro data hle
    match f, data with
    | 0, [] => rfl
    | 0, len :: rest => exact absurd hle (by simp)
    | f + 1, [] => rfl
    | f + 1, len :: rest =>
      rw [txtChunks]
      simp only [List.length_cons] at hle ⊢
      simp only [txtChunksGo]
      by_cases hc : rest.length + 1 > len
      · rw [if_pos hc, if_pos hc]
        have hdl : (rest.drop len).length = rest.length - len := List.length_drop len rest
        have h1 : txtChunksGo f (rest.drop len) = txtChunks (rest.drop len) :=
          ih f (by omega) _ (by omega)
        have h2 : txtChunksGo rest.length (rest.drop len) = txtChunks (rest.drop len) :=
          ih rest.length (by omega) _ (by omega)
        rw [h1, h2]
      · rw [if_neg hc, if_neg hc]

/-- The TXT chunks are a well-formed length-prefixed decomposition of a
prefix of the data, and what is left over is either nothing or starts
with a length byte that overruns the rest — the loop decodes the
longest well-formed prefix and stops at the first overrunning length
byte. -/
theorem txtChunks_decomposition :
    ∀ f data, List.length data ≤ f →
      ∃ rest, data = txtWire (txtChunksGo f data) ++ rest ∧
        (rest = [] ∨ ∃ L t, rest = L :: t ∧ t.length < L) := by
  intro f
  induction f using Nat.strong_induction_on with
  | _ f ih =>
    intro data hle
    match f, data with
    | 0, [] => exact ⟨[], by simp [txtChunksGo, txtWire], Or.inl rfl⟩
    | 0, len :: rest0 => exact absurd hle (by simp)
    | f + 1, [] => exact ⟨[], by simp [txtChunksGo, txtWire], Or.inl rfl⟩
    | f + 1, len :: rest0 =>
      simp only [List.length_cons] at hle
      by_cases hc : rest0.length + 1 > len
      · have h1 : (rest0.drop len).length ≤ f := by
          rw [List.length_drop]
          omega
        obtain ⟨r2, hdec, hr2⟩ := ih f (by omega) (rest0.drop len) h1
        refine ⟨r2, ?_, hr2⟩
        have htake : (rest0.take len).length = len := by
          rw [List.length_take]
          omega
        have hr0 : rest0 =
            rest0.take len ++ (txtWire (txtChunksGo f (rest0.drop len)) ++ r2) := by
          conv_lhs => rw [← List.take_append_drop len rest0, hdec]
        rw [txtChunksGo, if_pos hc]
        rw [txtWire, List.flatMap_cons, ← txtWire, htake]
        simp only [List.cons_append, List.append_assoc]
        exact congrArg (fun t => len :: t) hr0
      · refine ⟨len :: rest0, ?_, Or.inr ⟨len, rest0, rfl, by omega⟩⟩
        rw [txtChunksGo, if_neg hc]
        simp [txtWire]

/-- The distinct shapes of string `ResourceRecord.RDataString` can
return, each carrying the data the string is formatted from (the
`fmt.Sprintf` rendering itself is injective on each shape and is
abstracted away). -/
inductive RDataOut where
  /-- `"%d.%d.%d.%d"` over the four A-record bytes. -/
  | aOut (b0 b1 b2 b3 : Nat)
  /-- `"%x"` groups joined with `":"` for an AAAA record. -/
  | aaaaOut (groups : List Nat)
  /-- the decompressed domain name for a CNAME/NS record. -/
  | nameOut (name : Bytes)
  /-- `"invalid CNAME/NS data"`. -/
  | invalidCNameNS
  /-- `"%d %s"`: preference and exchange name for an MX record. -/
  | mxOut (preference : Nat) (exchange : Bytes)
  /-- `"invalid MX data"`. -/
  | invalidMX
  /-- `%q`-quoted character-strings joined with `" "` for a TXT record. -/
  | txtOut (chunks : List Bytes)
  /-- `"unsupported record type or malformed data (%v)"`. -/
  | unsupported (rdata : Bytes)
deriving DecidableEq, Repr

/-- Helper for `bytes.Index`: try each start position of `s` in turn,
reporting the first where `sep` is an initial run. -/
def bytesIndexGo (sep : Bytes) : Bytes → Nat → Option Nat
  | [], i => if sep = [] then some i else none
  | b :: t, i =>
    if (b :: t).take sep.length = sep then some i
    else bytesIndexGo sep t (i + 1)

/-- `bytes.Index(s, sep)`: index of the first occurrence of `sep`
inside `s`, with `none` standing for Go's `-1`. -/
def bytesIndex (s sep : Bytes) : Option Nat :=
  bytesIndexGo sep s 0

/-- `ResourceRecord.RDataString(fullMessage)` (records.go): the switch
on the record type.  A case whose guards fail falls through to the
final `unsupported` line; the CNAME/NS and MX cases re-locate the
record data inside the full message with `bytes.Index` and decode the
(possibly compressed) name there, which is where the decoder fuel is
spent. -/
def RDataString (fuel : Nat) (rr : ResourceRecord) (fullMessage : Bytes) :
    Option RDataOut :=
  if rr.RType = TypeA then
    if rr.RData.length = 4 then
      some (.aOut (rr.RData.getD 0 0) (rr.RData.getD 1 0)
        (rr.RData.getD 2 0) (rr.RData.getD 3 0))
    else some (.unsupported rr.RData)
  else if rr.RType = TypeAAAA then
    if rr.RData.length = 16 then
      some (.aaaaOut ((List.range 8).map fun i => be16 rr.RData (2 * i)))
    else some (.unsupported rr.RData)
  else if rr.RType = TypeCNAME ∨ rr.RType = TypeNS then
    match bytesIndex fullMessage rr.RData with
    | none => some .invalidCNameNS
    | some idx =>
      match DecodeDomainName fullMessage fuel idx with
      | none => none
      | some (.ok (name, _)) => some (.nameOut name)
      | some (.error _) => some (.unsupported rr.RData)
  else if rr.RType = TypeMX then
    if rr.RData.length > 2 then
      match bytesIndex fullMessage rr.RData with
      | none => some .invalidMX
      | some idx =>
        match DecodeDomainName fullMessage fuel (idx + 2) with
        | none => none
        | some (.ok (exchange, _)) => some (.mxOut (be16 rr.RData 0) exchange)
        | some (.error _) => some (.unsupported rr.RData)
    else some (.unsupported rr.RData)
  else if rr.RType = TypeTXT then
    some (.txtOut (txtChunks rr.RData))
  else some (.unsupported rr.RData)

/-- **C10.**  For a TXT record `RDataString` always returns the joined
character-strings — never the `unsupported` placeholder and never a
failure — and those character-strings are the decode of the longest
well-formed length-prefixed prefix of the data: the leftover is either
empty or starts with a length byte larger than what remains after it. -/
theorem rdataString_txt (fuel : Nat) (rr : ResourceRecord)
    (fullMessage : Bytes) (ht : rr.RType = TypeTXT) :
    RDataString fuel rr fullMessage = some (.txtOut (txtChunks rr.RData)) ∧
    (∀ rd, RDataString fuel rr fullMessage ≠ some (.unsupported rd)) ∧
    ∃ rest, rr.RData = txtWire (txtChunks rr.RData) ++ rest ∧
      (rest = [] ∨ ∃ L t, rest = L :: t ∧ t.length < L) := by
  have heq : RDataString fuel rr fullMessage =
      some (.txtOut (txtChunks rr.RData)) := by
    rw [RDataString, ht]
    rw [if_neg (by decide), if_neg (by decide), if_neg (by decide),
      if_neg (by decide), if_pos rfl]
  refine ⟨heq, ?_, ?_⟩
  · intro rd hne
    rw [heq] at hne
    exact absurd hne (by simp)
  · exact txtChunks_decomposition rr.RData.length rr.RData le_rfl

/-- **C10 (witness).**  The malformed TXT data `[1, 97, 5, 98]` (one
good chunk `"a"`, then length byte 5 with only one byte left) yields
the partial result of one chunk — not the unsupported placeholder —
with leftover `[5, 98]` whose length byte 5 overruns the single
remaining byte. -/
theorem rdataString_txt_witness :
    RDataString 1
      { Name := [], RType := 16, Class := 1, TTL := 0, RDLength := 4,
        RData := [1, 97, 5, 98] } [] = some (.txtOut [[97]]) ∧
    ([1, 97, 5, 98] : Bytes) = txtWire [[97]] ++ [5, 98] ∧ (1 : Nat) < 5 := by
  have h := rdataString_txt 1
    { Name := [], RType := 16, Class := 1, TTL := 0, RDLength := 4,
      RData := [1, 97, 5, 98] } [] rfl
  refine ⟨?_, by decide, by decide⟩
  rw [h.1]
  decide
